import Mathlib

/-!
# Verification of the Steam-to-Notion core mechanisms

Shallow embedding of the repository's core mechanisms:

* `errors.check` — HTTP-status error classification (`steamapi/errors.py`);
* `APICall` / `APIInterface` — attribute-path URL construction (`steamapi/core.py`);
* `APIResponse` — recursive JSON wrapping and attribute/item access (`steamapi/core.py`);
* `cached_property` — TTL-scoped per-name value cache (`steamapi/decorators.py`),
  together with the `SteamObject` class-level `_cache` attribute (`steamapi/core.py`);
* `chunker` — fixed-size sequence chunking (`steamapi/core.py`);
* `import_game_list` — batch-import flag fallback logic (`client_v2.py`).

Machine integers do not occur on these paths; Python ints are modelled as `Nat`
(HTTP status codes, timestamps, sizes are non-negative in every reachable state,
and the one subtraction `now - last_update` is only compared against a
non-negative `ttl`, where Python's negative result and `Nat`'s truncated `0`
fall on the same side of the comparison).
-/

/-! ## Generic helpers: strings as char lists, Python-dict association lists -/

/-- `charsStartWith p s` : does `s` start with the pattern `p`?
(Char-list form of Python's prefix test used by substring search.) -/
def charsStartWith : List Char → List Char → Bool
  | [], _ => true
  | _ :: _, [] => false
  | p :: ps, c :: cs => p == c && charsStartWith ps cs

/-- `charsContain pat s` : does `pat` occur as a contiguous substring of `s`?
Models Python's `pat in s` on strings. -/
def charsContain (pat : List Char) : List Char → Bool
  | [] => charsStartWith pat []
  | c :: cs => charsStartWith pat (c :: cs) || charsContain pat cs

/-- String-level substring containment, Python's `pat in s`. -/
def strContains (s pat : String) : Bool :=
  charsContain pat.data s.data

/-- Lookup in a Python dict modelled as an association list (first match). -/
def dictGet {α : Type} (k : String) : List (String × α) → Option α
  | [] => none
  | (k2, v) :: rest => if k2 = k then some v else dictGet k rest

/-- Python dict assignment `d[k] = v`: replace the binding if present, else append. -/
def dictInsert {α : Type} (k : String) (v : α) : List (String × α) → List (String × α)
  | [] => [(k, v)]
  | (k2, v2) :: rest => if k2 = k then (k, v) :: rest else (k2, v2) :: dictInsert k v rest

/-- Python dict deletion `del d[k]`. -/
def dictErase {α : Type} (k : String) : List (String × α) → List (String × α)
  | [] => []
  | (k2, v) :: rest => if k2 = k then dictErase k rest else (k2, v) :: dictErase k rest

theorem dictGet_dictInsert_self {α : Type} (k : String) (v : α) :
    ∀ d : List (String × α), dictGet k (dictInsert k v d) = some v := by
  intro d
  induction d with
  | nil => simp [dictInsert, dictGet]
  | cons hd tl ih =>
    obtain ⟨k2, v2⟩ := hd
    by_cases h : k2 = k
    · simp [dictInsert, dictGet, h]
    · simp [dictInsert, dictGet, h, ih]

theorem dictGet_dictErase_self {α : Type} (k : String) :
    ∀ d : List (String × α), dictGet k (dictErase k d) = none := by
  intro d
  induction d with
  | nil => simp [dictErase, dictGet]
  | cons hd tl ih =>
    obtain ⟨k2, v2⟩ := hd
    by_cases h : k2 = k
    · simp [dictErase, h, ih]
    · simp [dictErase, dictGet, h, ih]

/-! ## Error classification (`steamapi/errors.py`, `check`)

The exception classes raised by `check` are modelled as an enumeration; `check`
returns `some kind` where the Python function raises and `none` where it
returns normally.  The request URL matters only for the 403 branch, which
tests `"?key=" in response.request.url or "&key=" in response.request.url`. -/

/-- The exception types `errors.check` can raise, one constructor per class. -/
inductive APIErrorKind where
  | apiNotFound      -- `APINotFound` (404)
  | apiUnauthorized  -- `APIUnauthorized` (401)
  | apiPrivate       -- `APIPrivate` (403 with a key parameter on the URL)
  | apiKeyRequired   -- `APIKeyRequired` (403 without a key parameter)
  | apiBadCall       -- `APIBadCall` (400)
  | apiFailure       -- `APIFailure` (any other 4xx)
  | apiError         -- `APIError` (any 5xx)
  deriving DecidableEq, Repr

/-- The 403 branch's test: `"?key=" in url or "&key=" in url`. -/
def urlHasKeyParam (url : String) : Bool :=
  strContains url "?key=" || strContains url "&key="

/-- `errors.check`, embedded: classify a response by HTTP status code and
request URL; `none` means the Python function returns without raising. -/
def check (statusCode : Nat) (url : String) : Option APIErrorKind :=
  if statusCode / 100 = 4 then
    if statusCode = 404 then some .apiNotFound
    else if statusCode = 401 then some .apiUnauthorized
    else if statusCode = 403 then
      if urlHasKeyParam url then some .apiPrivate else some .apiKeyRequired
    else if statusCode = 400 then some .apiBadCall
    else some .apiFailure
  else if statusCode / 100 = 5 then some .apiError
  else none

/-- C1: the error classifier maps 404 to `APINotFound`, 401 to `APIUnauthorized`,
403 to `APIPrivate` when the request URL carries a key parameter and to
`APIKeyRequired` otherwise, 400 to `APIBadCall`, every other 4xx status to
`APIFailure`, every 5xx status to `APIError`, and raises nothing on any other
status; the seven categories produced for 400, 401, 403-with-key,
403-without-key, 404, 429 and 500 are pairwise distinct. -/
theorem check_classifies_status (statusCode : Nat) (url : String) :
    check 404 url = some .apiNotFound ∧
    check 401 url = some .apiUnauthorized ∧
    (urlHasKeyParam url = true → check 403 url = some .apiPrivate) ∧
    (urlHasKeyParam url = false → check 403 url = some .apiKeyRequired) ∧
    check 400 url = some .apiBadCall ∧
    (statusCode / 100 = 4 → statusCode ≠ 400 → statusCode ≠ 401 →
      statusCode ≠ 403 → statusCode ≠ 404 → check statusCode url = some .apiFailure) ∧
    (statusCode / 100 = 5 → check statusCode url = some .apiError) ∧
    (statusCode / 100 ≠ 4 → statusCode / 100 ≠ 5 → check statusCode url = none) ∧
    [check 400 "https://h/", check 401 "https://h/", check 403 "https://h/?key=abc",
      check 403 "https://h/", check 404 "https://h/", check 429 "https://h/",
      check 500 "https://h/"].Pairwise (· ≠ ·) := by
  refine ⟨by simp [check], by simp [check], ?_, ?_, by simp [check], ?_, ?_, ?_, by decide⟩
  · intro h; simp [check, h]
  · intro h; simp [check, h]
  · intro h1 h2 h3 h4 h5
    simp [check, h1, h2, h3, h4, h5]
  · intro h
    have h4 : statusCode / 100 ≠ 4 := by omega
    simp [check, h, h4]
  · intro h1 h2
    simp [check, h1, h2]

/-- Witness for C1: status 429 (a 4xx that is none of 400/401/403/404) is
classified as the catch-all `APIFailure`. -/
theorem check_classifies_status_witness :
    check 429 "https://h/" = some .apiFailure :=
  (check_classifies_status 429 "https://h/").2.2.2.2.2.1
    (by decide) (by decide) (by decide) (by decide) (by decide)

/-! ## Attribute-path URL construction (`steamapi/core.py`)

`APICall.__str__` builds the URL recursively: a node whose parent is the
`APIInterface` root yields `query_template + api_id + "/"`, and a node whose
parent is another `APICall` yields `str(parent) + api_id + "/"`.

`APIInterface.__getattr__` (non-strict mode) creates `APICall(name, self)` for
an unknown name and stores it in `self.__dict__`, so a re-read returns the
stored node.  `APICall.__getattribute__` creates a fresh `APICall(item, self)`
on every miss (children enter an `APICall`'s `__dict__` only via `_register`,
which runs only after a successful network call — outside the fresh, read-only
scenario modelled here). -/

/-- A node of the resolver tree: the `APIInterface` root (holding its
`_query_template`) or an `APICall` (holding `_api_id` and its parent). -/
inductive PathNode where
  | root (queryTemplate : String)
  | node (apiId : String) (parent : PathNode)
  deriving DecidableEq, Repr

/-- `APICall.__str__` / `APIInterface._query_template`: the URL of a node. -/
def nodeUrl : PathNode → String
  | .root q => q
  | .node apiId p => nodeUrl p ++ apiId ++ "/"

/-- State of an `APIInterface` root: its `_query_template` and the `APICall`
children stored in its `__dict__` by `__getattr__`. -/
structure InterfaceState where
  queryTemplate : String
  children : List (String × PathNode)
  deriving Repr

/-- `APIInterface.__getattr__` (non-strict): return the stored child if the
name was read before, else create `APICall(name, self)` and store it. -/
def interfaceGetattr (st : InterfaceState) (name : String) : PathNode × InterfaceState :=
  match dictGet name st.children with
  | some n => (n, st)
  | none =>
      let n := PathNode.node name (PathNode.root st.queryTemplate)
      (n, ⟨st.queryTemplate, dictInsert name n st.children⟩)

/-- `APICall.__getattribute__` on an attribute miss: a fresh child node. -/
def apiCallGetattr (parent : PathNode) (name : String) : PathNode :=
  PathNode.node name parent

/-- Read the attribute chain `first.rest₁.rest₂…` off an interface root,
returning the final node and the updated root state. -/
def readChain (st : InterfaceState) (first : String) (rest : List String) :
    PathNode × InterfaceState :=
  let (n, st2) := interfaceGetattr st first
  (rest.foldl apiCallGetattr n, st2)

/-- `a/b/c/…/`: every segment name in order, each followed by `/`. -/
def pathSuffix : List String → String
  | [] => ""
  | s :: rest => s ++ "/" ++ pathSuffix rest

/-- Every child stored in the interface's `__dict__` is the node
`APICall(name, root)` that `__getattr__` created for its name. -/
def InterfaceWF (st : InterfaceState) : Prop :=
  ∀ pr ∈ st.children, pr.2 = PathNode.node pr.1 (PathNode.root st.queryTemplate)

theorem nodeUrl_foldl (rest : List String) :
    ∀ n : PathNode, nodeUrl (rest.foldl apiCallGetattr n) = nodeUrl n ++ pathSuffix rest := by
  induction rest with
  | nil => intro n; simp [pathSuffix]
  | cons s rest ih =>
    intro n
    simp only [List.foldl_cons, ih, pathSuffix, apiCallGetattr, nodeUrl]
    simp [String.append_assoc]

theorem dictGet_mem {α : Type} (k : String) (v : α) :
    ∀ d : List (String × α), dictGet k d = some v → (k, v) ∈ d := by
  intro d
  induction d with
  | nil => intro h; simp [dictGet] at h
  | cons hd tl ih =>
    obtain ⟨k2, v2⟩ := hd
    intro h
    by_cases hk : k2 = k
    · subst hk
      simp [dictGet] at h
      subst h
      exact List.mem_cons_self _ _
    · simp [dictGet, hk] at h
      exact List.mem_cons_of_mem _ (ih h)

theorem mem_dictInsert {α : Type} (k : String) (v : α) (pr : String × α) :
    ∀ d : List (String × α), pr ∈ dictInsert k v d → pr = (k, v) ∨ pr ∈ d := by
  intro d
  induction d with
  | nil => intro h; simp [dictInsert] at h; exact Or.inl h
  | cons hd tl ih =>
    obtain ⟨k2, v2⟩ := hd
    intro h
    by_cases hk : k2 = k
    · simp only [dictInsert, if_pos hk, List.mem_cons] at h
      rcases h with h | h
      · exact Or.inl h
      · exact Or.inr (List.mem_cons_of_mem _ h)
    · simp only [dictInsert, if_neg hk, List.mem_cons] at h
      rcases h with h | h
      · exact Or.inr (by simp [h])
      · rcases ih h with h2 | h2
        · exact Or.inl h2
        · exact Or.inr (List.mem_cons_of_mem _ h2)

theorem interfaceGetattr_spec (st : InterfaceState) (first : String)
    (hwf : InterfaceWF st) :
    (interfaceGetattr st first).1 =
      PathNode.node first (PathNode.root st.queryTemplate) ∧
    (interfaceGetattr st first).2.queryTemplate = st.queryTemplate ∧
    InterfaceWF (interfaceGetattr st first).2 := by
  unfold interfaceGetattr
  cases h : dictGet first st.children with
  | some n =>
    refine ⟨?_, rfl, hwf⟩
    have hm := dictGet_mem first n st.children h
    exact hwf (first, n) hm
  | none =>
    refine ⟨rfl, rfl, ?_⟩
    intro pr hpr
    rcases mem_dictInsert _ _ _ _ hpr with h2 | h2
    · subst h2; rfl
    · exact hwf pr h2

/-- C2: reading the attribute chain `first.rest…` off an interface root yields a
node whose URL is the base address followed by each segment name in order, each
followed by `/`; the root state keeps its base address and well-formedness, and
re-reading the same chain off the updated state yields an identical URL. -/
theorem readChain_url (st : InterfaceState) (first : String) (rest : List String)
    (hwf : InterfaceWF st) :
    nodeUrl (readChain st first rest).1 =
      st.queryTemplate ++ first ++ "/" ++ pathSuffix rest ∧
    (readChain st first rest).2.queryTemplate = st.queryTemplate ∧
    InterfaceWF (readChain st first rest).2 ∧
    nodeUrl (readChain (readChain st first rest).2 first rest).1 =
      nodeUrl (readChain st first rest).1 := by
  obtain ⟨hnode, hq, hwf2⟩ := interfaceGetattr_spec st first hwf
  have hmain : ∀ st2 : InterfaceState, InterfaceWF st2 →
      nodeUrl (readChain st2 first rest).1 =
        st2.queryTemplate ++ first ++ "/" ++ pathSuffix rest := by
    intro st2 hwf2'
    obtain ⟨hn, _, _⟩ := interfaceGetattr_spec st2 first hwf2'
    show nodeUrl ((interfaceGetattr st2 first).1 |> rest.foldl apiCallGetattr) = _
    rw [nodeUrl_foldl, hn]
    simp [nodeUrl, String.append_assoc]
  have h1 := hmain st hwf
  have hstate : (readChain st first rest).2 = (interfaceGetattr st first).2 := rfl
  refine ⟨h1, by rw [hstate, hq], by rw [hstate]; exact hwf2, ?_⟩
  rw [h1, hmain (readChain st first rest).2 (by rw [hstate]; exact hwf2)]
  rw [hstate, hq]

/-- Witness for C2: the chain `ISteamUser.GetPlayerSummaries.v0002` off a fresh
root with base `https://api.steampowered.com/` resolves to the expected URL. -/
theorem readChain_url_witness :
    nodeUrl (readChain ⟨"https://api.steampowered.com/", []⟩ "ISteamUser"
        ["GetPlayerSummaries", "v0002"]).1 =
      "https://api.steampowered.com/" ++ "ISteamUser" ++ "/" ++
        pathSuffix ["GetPlayerSummaries", "v0002"] :=
  (readChain_url ⟨"https://api.steampowered.com/", []⟩ "ISteamUser"
    ["GetPlayerSummaries", "v0002"] (by intro pr hpr; simp at hpr)).1

/-! ## Response wrapping (`steamapi/core.py`, `APIResponse`)

`APIResponse.__init__` stores each value of the given dict into
`_real_dictionary`, replacing nested dicts by `APIResponse` instances and
nested lists by `_wrap_list`ed lists; `_wrap_list` does the same element-wise
(dict → `APIResponse`, list → recursive `_wrap_list`, other → as-is). -/

/-- A JSON scalar leaf (anything that is neither a dict nor a list). -/
inductive JScalar where
  | null
  | boolean (b : Bool)
  | num (n : Int)
  | str (s : String)
  deriving DecidableEq, Repr

/-- A JSON-compatible nested structure: dicts, lists and scalar leaves. -/
inductive Json where
  | scalar (s : JScalar)
  | arr (elems : List Json)
  | obj (fields : List (String × Json))

/-- A value as stored by the wrapper: a scalar kept as-is, an `APIResponse`
(wrapped dict), or a wrapped list. -/
inductive RVal where
  | prim (s : JScalar)
  | response (fields : List (String × RVal))
  | list (elems : List RVal)

mutual
/-- `APIResponse(j)` / scalar passthrough: wrap one JSON value the way
`APIResponse.__init__` stores it. -/
def wrapJson : Json → RVal
  | .scalar s => .prim s
  | .arr elems => .list (wrapJsonList elems)
  | .obj fields => .response (wrapJsonFields fields)

/-- `APIResponse._wrap_list`: wrap each element of a list. -/
def wrapJsonList : List Json → List RVal
  | [] => []
  | j :: rest => wrapJson j :: wrapJsonList rest

/-- The field loop of `APIResponse.__init__`: wrap each dict value. -/
def wrapJsonFields : List (String × Json) → List (String × RVal)
  | [] => []
  | (k, v) :: rest => (k, wrapJson v) :: wrapJsonFields rest
end

/-- An access path: a chain of dict-key and list-index reads. -/
inductive JPath where
  | nil
  | field (k : String) (rest : JPath)
  | idx (i : Nat) (rest : JPath)

/-- Direct lookup on the original JSON structure along a path. -/
def getJson : Json → JPath → Option Json
  | j, .nil => some j
  | .obj fields, .field k rest =>
      match dictGet k fields with
      | some v => getJson v rest
      | none => none
  | .arr elems, .idx i rest =>
      match elems.get? i with
      | some v => getJson v rest
      | none => none
  | _, _ => none

/-- The same chain read off the wrapped value: attribute/key reads on
`APIResponse` nodes, index reads on wrapped lists. -/
def getRVal : RVal → JPath → Option RVal
  | v, .nil => some v
  | .response fields, .field k rest =>
      match dictGet k fields with
      | some v => getRVal v rest
      | none => none
  | .list elems, .idx i rest =>
      match elems.get? i with
      | some v => getRVal v rest
      | none => none
  | _, _ => none

theorem dictGet_wrapJsonFields (k : String) :
    ∀ fields : List (String × Json),
      dictGet k (wrapJsonFields fields) = (dictGet k fields).map wrapJson := by
  intro fields
  induction fields with
  | nil => simp [wrapJsonFields, dictGet]
  | cons hd tl ih =>
    obtain ⟨k2, v2⟩ := hd
    by_cases h : k2 = k
    · simp [wrapJsonFields, dictGet, h]
    · simp [wrapJsonFields, dictGet, h, ih]

theorem get?_wrapJsonList (i : Nat) :
    ∀ elems : List Json, (wrapJsonList elems)[i]? = elems[i]?.map wrapJson := by
  induction i with
  | zero => intro elems; cases elems <;> simp [wrapJsonList]
  | succ n ih => intro elems; cases elems <;> simp [wrapJsonList, ih]

/-- C3: reading any chain of dict-key and list-index steps off the wrapped
structure returns exactly the wrap of the direct lookup on the original
structure — so every nested dict anywhere in the tree (also inside lists, and
lists of lists) is wrapped, scalar leaves pass through unmodified, and every
reachable leaf agrees with the direct key/index lookup. -/
theorem getRVal_wrapJson (p : JPath) :
    ∀ j : Json, getRVal (wrapJson j) p = (getJson j p).map wrapJson := by
  induction p with
  | nil => intro j; simp [getRVal, getJson]
  | field k rest ih =>
    intro j
    cases j with
    | scalar s => simp [wrapJson, getRVal, getJson]
    | arr elems => simp [wrapJson, getRVal, getJson]
    | obj fields =>
      simp only [wrapJson, getRVal, getJson, dictGet_wrapJsonFields]
      cases h : dictGet k fields with
      | none => simp
      | some v => simp [ih]
  | idx i rest ih =>
    intro j
    cases j with
    | scalar s => simp [wrapJson, getRVal, getJson]
    | obj fields => simp [wrapJson, getRVal, getJson]
    | arr elems =>
      simp only [wrapJson, getRVal, getJson, List.get?_eq_getElem?, get?_wrapJsonList]
      cases h : elems[i]? with
      | none => simp
      | some v => simp [ih]

/-! ## Envelope unwrapping (`steamapi/core.py`, `APICall.__call__` /
`APIConnection.call`)

After a successful request with automatic parsing (the caller supplied no
`format` argument), the code runs
`if len(response_obj.keys()) == 1 and "response" in response_obj:
   return APIResponse(response_obj["response"])
 else: return APIResponse(response_obj)`;
supplying `format` sets `automatic_parsing = False` and skips this stage
entirely (the raw body is returned instead).  `APIResponse.__init__` iterates
its argument as a dict (`for item in father_dict: ... father_dict[item]`,
core.py:589-595): handing it a list or a scalar raises
(`TypeError`/`IndexError`) instead of producing a wrapper, so the envelope
branch only returns a wrapper when the inner value is itself a JSON object.
Only this parsing stage is modelled; the HTTP transport below it is outside
the embedding. -/

/-- Python's `item.startswith("_")`. -/
def strStartsWithUnderscore (s : String) : Bool :=
  match s.data with
  | [] => false
  | c :: _ => c == '_'

/-- The real attributes that `super().__getattribute__` can find on an
`APIResponse` instance: the one instance slot set by `__init__` plus the
methods the class defines (every one begins with an underscore). -/
def apiResponseInternalNames : List String :=
  ["_real_dictionary", "_wrap_list", "__init__", "__repr__",
   "__getattribute__", "__getitem__", "__iter__", "__class__"]

/-- Outcome of an attribute read on a wrapper. -/
inductive AttrOutcome where
  | stored (v : RVal)  -- the stored value for a data key
  | attributeError     -- `AttributeError` raised
  | internalAttr       -- resolved to the object's own machinery, not JSON data

/-- `APIResponse.__getattribute__`, embedded over the wrapped fields. -/
def attrRead (fields : List (String × RVal)) (item : String) : AttrOutcome :=
  if item = "__dict__" then .internalAttr
  else if strStartsWithUnderscore item then
    if item ∈ apiResponseInternalNames then .internalAttr else .attributeError
  else
    match dictGet item fields with
    | some v => .stored v
    | none => .attributeError

/-- `APIResponse.__getitem__`: plain dict indexing; `.error ()` is `KeyError`. -/
def itemRead (fields : List (String × RVal)) (item : String) : Except Unit RVal :=
  match dictGet item fields with
  | some v => .ok v
  | none => .error ()

/-- `APIResponse.__iter__`: iteration over the wrapper yields the dict's keys. -/
def iterKeys (fields : List (String × RVal)) : List String :=
  fields.map Prod.fst

/-- C8 counterexample: on the wrapper of `{"_x": 1}` the key `"_x"` is present
— item-index read returns the stored value — yet attribute read raises
`AttributeError` instead of returning it, because `__getattribute__` routes
every name starting with an underscore away from the data dictionary.  So the
claim's "for every key present, both access styles return the same stored
value" is false as stated. -/
theorem attrRead_itemRead_disagree :
    dictGet "_x" [("_x", RVal.prim (.num 1))] = some (RVal.prim (.num 1)) ∧
    itemRead [("_x", RVal.prim (.num 1))] "_x" = .ok (RVal.prim (.num 1)) ∧
    attrRead [("_x", RVal.prim (.num 1))] "_x" = .attributeError :=
  ⟨rfl, rfl, rfl⟩

/-- C8 amended: for every key that does not begin with an underscore, an absent
key makes attribute read raise `AttributeError` and item-index read raise
`KeyError`, while a present key makes both access styles return the same stored
value; iteration over a wrapper yields exactly its keys (the names on which
lookup succeeds), not the wrapped values. -/
theorem apiResponse_access (fields : List (String × RVal)) (item : String)
    (h : strStartsWithUnderscore item = false) :
    (dictGet item fields = none →
      attrRead fields item = .attributeError ∧ itemRead fields item = .error ()) ∧
    (∀ v, dictGet item fields = some v →
      attrRead fields item = .stored v ∧ itemRead fields item = .ok v) ∧
    iterKeys fields = fields.map Prod.fst ∧
    (∀ k, k ∈ iterKeys fields ↔ dictGet k fields ≠ none) := by
  have hd : item ≠ "__dict__" := by
    intro contra
    rw [contra] at h
    simp [strStartsWithUnderscore] at h
  refine ⟨?_, ?_, rfl, ?_⟩
  · intro hnone
    constructor
    · simp [attrRead, hd, h, hnone]
    · simp [itemRead, hnone]
  · intro v hsome
    constructor
    · simp [attrRead, hd, h, hsome]
    · simp [itemRead, hsome]
  · intro k
    induction fields with
    | nil => simp [iterKeys, dictGet]
    | cons hd2 tl ih =>
      obtain ⟨k2, v2⟩ := hd2
      by_cases hk : k2 = k
      · subst hk
        simp [iterKeys, dictGet]
      · simp only [iterKeys, List.map_cons, List.mem_cons, dictGet, if_neg hk]
        constructor
        · intro hmem
          rcases hmem with hmem | hmem
          · exact absurd hmem.symm hk
          · exact (ih.mp (by simpa [iterKeys] using hmem))
        · intro hne
          exact Or.inr (by simpa [iterKeys] using ih.mpr hne)

/-- Witness for C8 (amended): on the wrapper of `{"players": 3}` both access
styles return the stored value for the present key `"players"`. -/
theorem apiResponse_access_witness :
    attrRead [("players", RVal.prim (.num 3))] "players" = .stored (RVal.prim (.num 3)) ∧
    itemRead [("players", RVal.prim (.num 3))] "players" = .ok (RVal.prim (.num 3)) :=
  (apiResponse_access [("players", RVal.prim (.num 3))] "players" rfl).2.1
    (RVal.prim (.num 3)) rfl

/-! ## TTL-scoped cached property (`steamapi/decorators.py`, `cached_property`)

`__get__` reads `time.time()` into `now`, creates `inst._cache = {}` when the
instance has no `_cache` attribute, looks up the entry by the wrapped
function's name, discards it when `now - last_update > ttl > 0` (Python's
chained comparison: both `now - last_update > ttl` and `ttl > 0`), and on a
missing or discarded entry calls `fget`, stores `(value, now)`, and returns the
value; on a kept entry it returns the cached value without calling `fget`.

Timestamps are `Nat`; `now - last_update` is truncated subtraction, which
agrees with Python on the comparison against a non-negative `ttl` (a negative
Python difference and the truncated `0` both fail `> ttl`).  The wrapped
function is modelled by the value `fgetVal` it would return on this call, and
`invoked` records whether it was called (the code calls it at most once per
read, at `value = self.fget(inst)`). -/

/-- The cache-relevant state of one Python object: whether it has a `_cache`
attribute of its own, and the mapping `name ↦ (value, last_update)`. -/
structure CacheState (α : Type) where
  hasCache : Bool
  cache : List (String × (α × Nat))
  deriving Repr

/-- Result of one `cached_property.__get__` read. -/
structure CacheGetResult (α : Type) where
  value : α
  state : CacheState α
  invoked : Bool
  deriving Repr

/-- The dict `inst._cache` refers to after the `hasattr` guard. -/
def effectiveCache {α : Type} (st : CacheState α) : List (String × (α × Nat)) :=
  if st.hasCache then st.cache else []

/-- `cached_property.__get__`, embedded. -/
def cachedPropertyGet {α : Type} (ttl : Nat) (fname : String) (fgetVal : α)
    (st : CacheState α) (now : Nat) : CacheGetResult α :=
  let cache0 := effectiveCache st
  match dictGet fname cache0 with
  | some (v, lastUpdate) =>
      if now - lastUpdate > ttl ∧ ttl > 0 then
        ⟨fgetVal, ⟨true, dictInsert fname (fgetVal, now) cache0⟩, true⟩
      else
        ⟨v, ⟨true, cache0⟩, false⟩
  | none => ⟨fgetVal, ⟨true, dictInsert fname (fgetVal, now) cache0⟩, true⟩

/-- C4: for a cached property with `ttl = T > 0`: a read that finds an entry
`(v, t)` with `now - t ≤ T` returns `v` without invoking the wrapped function
and leaves the cache unchanged; a read that finds no entry, or an entry with
`now - t > T`, invokes the wrapped function exactly once, stores
`(result, now)` under the function's name, and returns the result. -/
theorem cachedPropertyGet_ttl (T : Nat) (hT : 0 < T) {α : Type} (fname : String)
    (fgetVal v : α) (t now : Nat) (st : CacheState α) :
    (dictGet fname (effectiveCache st) = some (v, t) → now - t ≤ T →
      cachedPropertyGet T fname fgetVal st now = ⟨v, ⟨true, effectiveCache st⟩, false⟩) ∧
    (dictGet fname (effectiveCache st) = none →
      cachedPropertyGet T fname fgetVal st now =
        ⟨fgetVal, ⟨true, dictInsert fname (fgetVal, now) (effectiveCache st)⟩, true⟩) ∧
    (dictGet fname (effectiveCache st) = some (v, t) → now - t > T →
      cachedPropertyGet T fname fgetVal st now =
        ⟨fgetVal, ⟨true, dictInsert fname (fgetVal, now) (effectiveCache st)⟩, true⟩) ∧
    dictGet fname (cachedPropertyGet T fname fgetVal st now).state.cache ≠ none := by
  refine ⟨?_, ?_, ?_, ?_⟩
  · intro hsome hfresh
    have : ¬(now - t > T ∧ T > 0) := by omega
    simp [cachedPropertyGet, hsome, this]
  · intro hnone
    simp [cachedPropertyGet, hnone]
  · intro hsome hstale
    have : now - t > T ∧ T > 0 := ⟨hstale, hT⟩
    simp [cachedPropertyGet, hsome, this]
  · unfold cachedPropertyGet
    cases h : dictGet fname (effectiveCache st) with
    | some pr =>
      obtain ⟨v2, t2⟩ := pr
      by_cases hc : now - t2 > T ∧ T > 0
      · simp [h, hc, dictGet_dictInsert_self]
      · simp [h, hc]
    | none => simp [h, dictGet_dictInsert_self]

/-- Witness for C4: with `ttl = 10`, a read at `now = 4` of an entry captured
at `t = 0` returns the cached `5` without invoking the wrapped function. -/
theorem cachedPropertyGet_ttl_witness :
    cachedPropertyGet 10 "name" (7 : Nat) ⟨true, [("name", (5, 0))]⟩ 4 =
      ⟨5, ⟨true, [("name", (5, 0))]⟩, false⟩ :=
  (cachedPropertyGet_ttl 10 (by decide) "name" 7 5 0 4
    ⟨true, [("name", (5, 0))]⟩).1 rfl (by decide)

/-- A sequence of reads of one cached property on one object at the given
times, counting how often the wrapped function is invoked. -/
def readSeq {α : Type} (ttl : Nat) (fname : String) (fgetVal : α) :
    CacheState α → List Nat → CacheState α × Nat
  | st, [] => (st, 0)
  | st, now :: rest =>
      let r := cachedPropertyGet ttl fname fgetVal st now
      let next := readSeq ttl fname fgetVal r.state rest
      (next.1, (if r.invoked then 1 else 0) + next.2)

theorem readSeq_count_zero {α : Type} (fname : String) (fgetVal : α) :
    ∀ (times : List Nat) (st : CacheState α),
      dictGet fname (effectiveCache st) ≠ none →
      (readSeq 0 fname fgetVal st times).2 = 0 := by
  intro times
  induction times with
  | nil => intro st hne; simp [readSeq]
  | cons now rest ih =>
    intro st hne
    cases h : dictGet fname (effectiveCache st) with
    | none => exact absurd h hne
    | some pr =>
      obtain ⟨v, t⟩ := pr
      have hread : cachedPropertyGet 0 fname fgetVal st now =
          ⟨v, ⟨true, effectiveCache st⟩, false⟩ := by
        simp [cachedPropertyGet, h]
      simp only [readSeq, hread]
      have : dictGet fname (effectiveCache (⟨true, effectiveCache st⟩ : CacheState α)) ≠
          none := by
        simpa [effectiveCache] using hne
      simp [ih _ this]

/-- C7: with `ttl = 0` the wrapped function is invoked at most once over any
sequence of reads of the property on one instance, regardless of the elapsed
time between reads; and a read performed right after the entry is explicitly
deleted from the instance's cache mapping invokes the function (exactly the
one invocation of that read) and returns its result. -/
theorem cachedPropertyGet_infinite_ttl {α : Type} (fname : String) (fgetVal : α)
    (st : CacheState α) (times : List Nat) (c : List (String × (α × Nat))) (now : Nat) :
    (readSeq 0 fname fgetVal st times).2 ≤ 1 ∧
    (cachedPropertyGet 0 fname fgetVal ⟨true, dictErase fname c⟩ now).invoked = true ∧
    (cachedPropertyGet 0 fname fgetVal ⟨true, dictErase fname c⟩ now).value = fgetVal := by
  refine ⟨?_, ?_, ?_⟩
  · cases times with
    | nil => simp [readSeq]
    | cons now0 rest =>
      cases h : dictGet fname (effectiveCache st) with
      | some pr =>
        obtain ⟨v, t⟩ := pr
        have hread : cachedPropertyGet 0 fname fgetVal st now0 =
            ⟨v, ⟨true, effectiveCache st⟩, false⟩ := by
          simp [cachedPropertyGet, h]
        have hne : dictGet fname
            (effectiveCache (⟨true, effectiveCache st⟩ : CacheState α)) ≠ none := by
          have heq : effectiveCache (⟨true, effectiveCache st⟩ : CacheState α) =
              effectiveCache st := rfl
          rw [heq, h]
          simp
        simp only [readSeq, hread]
        simp [readSeq_count_zero fname fgetVal rest _ hne]
      | none =>
        have hread : cachedPropertyGet 0 fname fgetVal st now0 =
            ⟨fgetVal, ⟨true, dictInsert fname (fgetVal, now0) (effectiveCache st)⟩,
              true⟩ := by
          simp [cachedPropertyGet, h]
        have hne : dictGet fname (effectiveCache
            (⟨true, dictInsert fname (fgetVal, now0) (effectiveCache st)⟩ :
              CacheState α)) ≠ none := by
          simp [effectiveCache, dictGet_dictInsert_self]
        simp only [readSeq, hread]
        simp [readSeq_count_zero fname fgetVal rest _ hne]
  · simp [cachedPropertyGet, dictGet_dictErase_self, effectiveCache]
  · simp [cachedPropertyGet, dictGet_dictErase_self, effectiveCache]

/-! ## Per-instance vs class-level cache (`SteamObject`, core.py)

`SteamObject` declares `_cache: tp.Dict[str, tp.Any] = {}` in the class body —
a *class attribute* holding one shared dict.  Python attribute lookup on an
instance falls back to the class, so for any `SteamObject`-derived instance
that never assigned its own `_cache` (e.g. a plain `SteamUser`):

* `hasattr(inst, "_cache")` in `cached_property.__get__` is always true, so
  the per-instance initialisation `inst._cache = {}` never runs;
* `inst._cache` reads, and `inst._cache[name] = (value, now)` mutates, the
  single class-level dict shared by every such instance.

Two instances A and B are modelled; each optionally owns an instance-level
`_cache` dict (`none` = never assigned one), beside the one class-level dict. -/

/-- The `_cache`-relevant state of two `SteamObject`-derived instances. -/
structure SteamObjWorld (α : Type) where
  classCache : List (String × (α × Nat))          -- `SteamObject._cache`
  instCacheA : Option (List (String × (α × Nat))) -- instance attribute of A, if assigned
  instCacheB : Option (List (String × (α × Nat))) -- instance attribute of B, if assigned
  deriving Repr

/-- The dict Python attribute lookup finds for `inst._cache`. -/
def steamObjCacheOf {α : Type} (w : SteamObjWorld α) (onA : Bool) :
    List (String × (α × Nat)) :=
  match (if onA then w.instCacheA else w.instCacheB) with
  | some c => c
  | none => w.classCache

/-- Write the mutated dict back to wherever the lookup found it. -/
def steamObjWriteCache {α : Type} (w : SteamObjWorld α) (onA : Bool)
    (c : List (String × (α × Nat))) : SteamObjWorld α :=
  if onA then
    match w.instCacheA with
    | some _ => { w with instCacheA := some c }
    | none => { w with classCache := c }
  else
    match w.instCacheB with
    | some _ => { w with instCacheB := some c }
    | none => { w with classCache := c }

/-- `cached_property.__get__` on instance A (`onA = true`) or B, over the
two-instance world: `hasattr(inst, "_cache")` is always true (the class
attribute exists), so no per-instance mapping is ever created.  Returns
(value, new world, whether the wrapped function was invoked). -/
def steamObjectGet {α : Type} (ttl : Nat) (fname : String) (fgetVal : α)
    (w : SteamObjWorld α) (onA : Bool) (now : Nat) : α × SteamObjWorld α × Bool :=
  let cache0 := steamObjCacheOf w onA
  match dictGet fname cache0 with
  | some (v, lastUpdate) =>
      if now - lastUpdate > ttl ∧ ttl > 0 then
        (fgetVal, steamObjWriteCache w onA (dictInsert fname (fgetVal, now) cache0), true)
      else (v, w, false)
  | none =>
      (fgetVal, steamObjWriteCache w onA (dictInsert fname (fgetVal, now) cache0), true)

/-- C5 is contradicted by the code: two fresh `SteamObject`-derived instances
(neither ever assigned its own `_cache`) share the class-level dict.  Caching
`7` for property `"name"` on instance A stores the entry in the class dict, and
the next read of `"name"` on instance B returns A's `7` without invoking B's
wrapped function (which would have produced `99`) — the entry stored on one
instance is visible on the other, and no per-instance mapping was created. -/
theorem steamObject_cache_shared :
    steamObjectGet 0 "name" (7 : Nat) ⟨[], none, none⟩ true 0 =
      (7, ⟨[("name", (7, 0))], none, none⟩, true) ∧
    (steamObjectGet 0 "name" (99 : Nat) ⟨[("name", (7, 0))], none, none⟩ false 5).1 = 7 ∧
    (steamObjectGet 0 "name" (99 : Nat) ⟨[("name", (7, 0))], none, none⟩ false 5).2.2
      = false ∧
    (steamObjectGet 0 "name" (99 : Nat) ⟨[("name", (7, 0))], none, none⟩ false 5).2.1
      = ⟨[("name", (7, 0))], none, none⟩ := by
  refine ⟨?_, rfl, rfl, rfl⟩
  simp [steamObjectGet, steamObjCacheOf, steamObjWriteCache, dictGet, dictInsert]

/-! ## Chunking (`steamapi/core.py`, `chunker`)

`chunker(seq, size)` is `(seq[pos : pos + size] for pos in range(0, len(seq),
size))`.  `pyRange` embeds Python's `range(start, stop, step)` for a positive
step (`range` raises `ValueError` on a zero step, which no caller hits: the
one call site uses the constant batch size 350); the slice `seq[pos : pos +
size]` on non-negative bounds is `(seq.drop pos).take size`. -/

/-- Python's `range(start, stop, step)` for a positive step. -/
def pyRange (start stop step : Nat) : List Nat :=
  if _h : 0 < step ∧ start < stop then start :: pyRange (start + step) stop step
  else []
termination_by stop - start
decreasing_by omega

/-- `chunker`: consecutive slices of length `size` starting at the positions
`range(0, len(seq), size)`. -/
def chunker {α : Type} (seq : List α) (size : Nat) : List (List α) :=
  (pyRange 0 seq.length size).map (fun pos => (seq.drop pos).take size)

theorem pyRange_unfold (start stop step : Nat) :
    pyRange start stop step =
      if 0 < step ∧ start < stop then start :: pyRange (start + step) stop step
      else [] := by
  rw [pyRange]
  split <;> rfl

theorem pyRange_shift (st : Nat) (hst : 0 < st) :
    ∀ (m a e : Nat), e - a ≤ m →
      pyRange (a + st) e st = (pyRange a (e - st) st).map (fun x => x + st) := by
  intro m
  induction m with
  | zero =>
    intro a e h
    rw [pyRange_unfold (a + st) e st, pyRange_unfold a (e - st) st]
    have h1 : ¬(0 < st ∧ a + st < e) := by omega
    have h2 : ¬(0 < st ∧ a < e - st) := by omega
    simp [h1, h2]
  | succ n ih =>
    intro a e h
    rw [pyRange_unfold (a + st) e st, pyRange_unfold a (e - st) st]
    by_cases hc : a + st < e
    · have h1 : 0 < st ∧ a + st < e := ⟨hst, hc⟩
      have h2 : 0 < st ∧ a < e - st := ⟨hst, by omega⟩
      rw [if_pos h1, if_pos h2, List.map_cons]
      congr 1
      exact ih (a + st) e (by omega)
    · have h1 : ¬(0 < st ∧ a + st < e) := by omega
      have h2 : ¬(0 < st ∧ a < e - st) := by omega
      rw [if_neg h1, if_neg h2]
      simp

theorem chunker_nil {α : Type} (size : Nat) : chunker ([] : List α) size = [] := by
  simp [chunker, pyRange_unfold]

theorem chunker_cons {α : Type} (size : Nat) (hsize : 0 < size)
    (seq : List α) (hne : seq ≠ []) :
    chunker seq size = seq.take size :: chunker (seq.drop size) size := by
  unfold chunker
  rw [pyRange_unfold 0 seq.length size]
  have h1 : 0 < size ∧ 0 < seq.length := ⟨hsize, List.length_pos.mpr hne⟩
  rw [if_pos h1, List.map_cons]
  have hshift : pyRange (0 + size) seq.length size =
      (pyRange 0 (seq.length - size) size).map (fun x => x + size) :=
    pyRange_shift size hsize seq.length 0 seq.length (le_refl _)
  rw [hshift, List.map_map, List.length_drop]
  have hfun : ((fun pos => List.take size (List.drop pos seq)) ∘ fun x => x + size) =
      fun pos => List.take size (List.drop pos (List.drop size seq)) := by
    funext pos
    simp [Function.comp, List.drop_drop, Nat.add_comm]
  rw [hfun, List.drop_zero]

theorem chunker_spec {α : Type} (size : Nat) (hsize : 0 < size) :
    ∀ (n : Nat) (seq : List α), seq.length ≤ n →
      (chunker seq size).flatten = seq ∧
      (∀ c ∈ chunker seq size, c.length ≤ size) ∧
      (∀ i c, i + 1 < (chunker seq size).length →
        (chunker seq size)[i]? = some c → c.length = size) := by
  intro n
  induction n with
  | zero =>
    intro seq h
    have hseq : seq = [] := by
      cases seq with
      | nil => rfl
      | cons a l => simp at h
    subst hseq
    simp [chunker_nil]
  | succ n ih =>
    intro seq h
    by_cases hne : seq = []
    · subst hne; simp [chunker_nil]
    · rw [chunker_cons size hsize seq hne]
      obtain ⟨ih1, ih2, ih3⟩ := ih (seq.drop size) (by rw [List.length_drop]; omega)
      refine ⟨?_, ?_, ?_⟩
      · simp [ih1]
      · intro c hc
        rcases List.mem_cons.mp hc with hc | hc
        · subst hc
          rw [List.length_take]
          omega
        · exact ih2 c hc
      · intro i c hi hsome
        cases i with
        | zero =>
          simp only [List.getElem?_cons_zero, Option.some.injEq] at hsome
          subst hsome
          simp only [List.length_cons] at hi
          have hch : chunker (seq.drop size) size ≠ [] := by
            intro h0
            rw [h0] at hi
            simp at hi
          have hdrop : seq.drop size ≠ [] := by
            intro h0
            rw [h0, chunker_nil] at hch
            exact hch rfl
          have hlen : size < seq.length := by
            by_contra hle
            push_neg at hle
            exact hdrop (List.drop_eq_nil_of_le hle)
          rw [List.length_take]
          omega
        | succ j =>
          simp only [List.getElem?_cons_succ] at hsome
          simp only [List.length_cons] at hi
          exact ih3 j c (by omega) hsome

theorem replicate_ne_nil_of_pos {α : Type} (n : Nat) (a : α) (h : 0 < n) :
    List.replicate n a ≠ [] := by
  intro h0
  have hlen := congrArg List.length h0
  rw [List.length_replicate] at hlen
  simp at hlen
  omega

theorem chunker_concrete :
    (chunker (List.replicate 720 "id") 350).map List.length = [350, 350, 20] := by
  have e3 : chunker (List.replicate 20 "id") 350 = [List.replicate 20 "id"] := by
    rw [chunker_cons 350 (by omega) _ (replicate_ne_nil_of_pos 20 _ (by omega))]
    rw [List.drop_replicate, List.take_replicate]
    norm_num
    rw [chunker_nil]
  have e2 : chunker (List.replicate 370 "id") 350 =
      List.replicate 350 "id" :: chunker (List.replicate 20 "id") 350 := by
    rw [chunker_cons 350 (by omega) _ (replicate_ne_nil_of_pos 370 _ (by omega))]
    rw [List.drop_replicate, List.take_replicate]
    norm_num
  have e1 : chunker (List.replicate 720 "id") 350 =
      List.replicate 350 "id" :: chunker (List.replicate 370 "id") 350 := by
    rw [chunker_cons 350 (by omega) _ (replicate_ne_nil_of_pos 720 _ (by omega))]
    rw [List.drop_replicate, List.take_replicate]
    norm_num
  rw [e1, e2, e3]
  simp only [List.map_cons, List.map_nil, List.length_replicate]

/-- C9: for every sequence and chunk size `size > 0`, the chunker yields
consecutive slices whose concatenation equals the original sequence (order
preserved, nothing duplicated or dropped), each of length at most `size`, and
every chunk but possibly the last of length exactly `size`; a list of 720
string IDs with `size = 350` yields exactly the chunk lengths
`[350, 350, 20]`. -/
theorem chunker_yields_chunks {α : Type} (seq : List α) (size : Nat)
    (hsize : 0 < size) :
    (chunker seq size).flatten = seq ∧
    (∀ c ∈ chunker seq size, c.length ≤ size) ∧
    (∀ i c, i + 1 < (chunker seq size).length →
      (chunker seq size)[i]? = some c → c.length = size) ∧
    (chunker (List.replicate 720 "id") 350).map List.length = [350, 350, 20] :=
  have h := chunker_spec size hsize seq.length seq (le_refl _)
  ⟨h.1, h.2.1, h.2.2, chunker_concrete⟩

/-- Witness for C9: chunking `["a", "b", "c"]` with size 2 concatenates back to
the original list. -/
theorem chunker_yields_chunks_witness :
    (chunker ["a", "b", "c"] 2).flatten = ["a", "b", "c"] :=
  (chunker_yields_chunks ["a", "b", "c"] 2 (by decide)).1

/-! ## Batch import flag fallback (`src/client_v2.py`, `import_game_list`)

Before the loop: `if update_mode: skip_duplicates = False`; then, if either
flag is set, the existing-games lookup runs — skipped with empty results for a
new database; on a raised exception (`NotionApiError` or any other) both flags
are set to `False` and both lookup results to `None`, and the loop still runs.
Inside the loop each game is dispatched:
`if update_mode and existing_map and game.name in existing_map` → update,
`elif`-equivalent `if skip_duplicates and existing_names and game.name in
existing_names` → skip, else → create (`add_game`; its own failures are caught
inside and only append to the error list, never abort the loop). -/

/-- The loop-relevant configuration after the pre-loop phase. -/
structure ImportConfig where
  skipDuplicates : Bool
  updateMode : Bool
  existingNames : Option (List String)          -- `existing_names` (None or a set)
  existingMap : Option (List (String × String)) -- `existing_map` (None or name ↦ page id)
  deriving Repr

/-- Python truthiness of `existing_names` / `existing_map`: `None` and an
empty collection are falsy. -/
def truthyOptList {β : Type} : Option (List β) → Bool
  | none => false
  | some l => !l.isEmpty

/-- The pre-loop phase of `import_game_list`: flag reconciliation, then the
existing-games lookup (its outcome is `lookupResult`; `.error ()` models a
raised exception). -/
def setupImport (skipDuplicates updateMode isNewDatabase : Bool)
    (lookupResult : Except Unit (List (String × String))) : ImportConfig :=
  let skipDup := if updateMode then false else skipDuplicates
  if skipDup || updateMode then
    if isNewDatabase then ⟨skipDup, updateMode, some [], some []⟩
    else
      match lookupResult with
      | .ok m =>
          if updateMode then ⟨skipDup, updateMode, some (m.map Prod.fst), some m⟩
          else ⟨skipDup, updateMode, some (m.map Prod.fst), none⟩
      | .error _ => ⟨false, false, none, none⟩
  else ⟨skipDup, updateMode, none, none⟩

/-- What the loop body does with one game. -/
inductive ItemAction where
  | update  -- patch the existing page
  | skip    -- count as duplicate, do nothing
  | create  -- unconditionally add as a new entry
  deriving DecidableEq, Repr

/-- The dispatch at the top of the loop body for one game name. -/
def itemAction (cfg : ImportConfig) (name : String) : ItemAction :=
  if cfg.updateMode && truthyOptList cfg.existingMap &&
      (dictGet name (cfg.existingMap.getD [])).isSome then .update
  else if cfg.skipDuplicates && truthyOptList cfg.existingNames &&
      (cfg.existingNames.getD []).contains name then .skip
  else .create

/-- The whole loop: every game is dispatched; no action aborts the batch. -/
def runImport (cfg : ImportConfig) (games : List String) : List ItemAction :=
  games.map (itemAction cfg)

/-- C10: when skip-duplicates or update mode was requested on a non-new
database and the existing-entries lookup raises, both flags are forced off for
the rest of the batch: every subsequent item is dispatched to unconditional
creation (never update, never skip), and the batch processes every item rather
than aborting. -/
theorem importGameList_lookup_failure (skipDuplicates updateMode : Bool)
    (hreq : (skipDuplicates || updateMode) = true) (games : List String) :
    (setupImport skipDuplicates updateMode false (.error ())).skipDuplicates = false ∧
    (setupImport skipDuplicates updateMode false (.error ())).updateMode = false ∧
    (∀ name, itemAction (setupImport skipDuplicates updateMode false (.error ())) name
      = .create) ∧
    runImport (setupImport skipDuplicates updateMode false (.error ())) games
      = List.replicate games.length .create := by
  have hcfg : setupImport skipDuplicates updateMode false (.error ()) =
      ⟨false, false, none, none⟩ := by
    cases updateMode with
    | true => simp [setupImport]
    | false =>
      cases skipDuplicates with
      | true => simp [setupImport]
      | false => simp at hreq
  have hact : ∀ name,
      itemAction (setupImport skipDuplicates updateMode false (.error ())) name
        = .create := by
    intro name
    rw [hcfg]
    simp [itemAction, truthyOptList]
  refine ⟨by rw [hcfg], by rw [hcfg], hact, ?_⟩
  induction games with
  | nil => rfl
  | cons g tl ih =>
    simp only [runImport, List.map_cons, hact g, List.length_cons, List.replicate_succ]
    exact congrArg (ItemAction.create :: ·) ih

/-- Witness for C10: with skip-duplicates requested and the lookup failing on a
non-new database, a two-game batch is dispatched to two unconditional creates. -/
theorem importGameList_lookup_failure_witness :
    runImport (setupImport true false false (.error ())) ["A", "B"]
      = List.replicate 2 ItemAction.create :=
  (importGameList_lookup_failure true false (by decide) ["A", "B"]).2.2.2
